import Mathlib

/-!
Verification of the Kubernetes metadata-mapper core of the datadog-agent
repository: the `Endpoints` reconciliation engine (`syncEndpoints`,
`mapEndpoints`, `mapDeletedEndpoints`), the per-node mapping data model
(`ServicesMapper`, `MetadataMapperBundle`), the query API
(`ServicesForPod`, `GetPodMetadataNames`, `GetMetadataMapBundleOnAllNodes`)
and the work queue used to serialize reconciliations.

The implementation file of the metadata controller is not part of the
source tree given here; only its unit test
(`pkg/util/kubernetes/apiserver/metadata_test.go`) is.  The definitions
below are therefore modelled from the specification, except where the
in-repo test pins a concrete behaviour that differs from the
specification's words — in those places the test is authoritative and the
divergence is proved below (the test expects node bundles to be *merged*
with an endpoints object's current contribution and service deletion to be
scoped to the endpoints object's own namespace, not the from-scratch
recompute the specification describes).

Service sets (`sets.String` in the Go code) are embedded as canonical
strictly-sorted duplicate-free `List String`, so that list equality is set
equality and `sets.String.List()` (which sorts) is the identity.  Maps
are embedded as functions; the Go code never stores an empty service set
(inserts always add an element, deletes prune empty entries), so "pod
absent from the map" is represented by the empty list and "namespace
absent" by a pointwise-empty row.
-/

/-- Lexicographic comparison of character data, by code point: the order
`sort.Strings` of the Go standard library uses on ASCII service names. -/
def charListLt : List Char → List Char → Bool
  | _, [] => false
  | [], _ :: _ => true
  | c :: cs, d :: ds =>
    if c.toNat < d.toNat then true
    else if d.toNat < c.toNat then false
    else charListLt cs ds

/-- Lexicographic comparison of strings. -/
def strLt (a b : String) : Bool :=
  charListLt a.data b.data

/-- The lexicographic strict order on strings, as a proposition. -/
def sLt (a b : String) : Prop :=
  strLt a b = true

instance : DecidableRel sLt :=
  fun a b => inferInstanceAs (Decidable (strLt a b = true))

/-- Modelled from the Go `sets.String.Insert`: insertion into a canonical
strictly-sorted duplicate-free list of service names. -/
def ssInsert (a : String) : List String → List String
  | [] => [a]
  | b :: l => if a = b then b :: l else if strLt a b then a :: b :: l else b :: ssInsert a l

/-- Modelled from the Go `sets.String.Delete`: removal of a name from a
service set. -/
def ssRemove (a : String) : List String → List String
  | [] => []
  | b :: l => if b = a then ssRemove a l else b :: ssRemove a l

/-- Pod reference carried by an endpoint address (`v1.ObjectReference` with
Kind Pod): the pod's namespace and name. -/
structure TargetRef where
  ns : String
  name : String
deriving DecidableEq

/-- One address of an `v1.EndpointSubset`: an optional direct node name and
an optional pod reference, the two fields the controller reads. -/
structure EndpointAddress where
  nodeName : Option String
  targetRef : Option TargetRef
deriving DecidableEq

/-- One `v1.EndpointSubset`: the addresses currently backing the service. -/
structure EndpointSubset where
  addresses : List EndpointAddress
deriving DecidableEq

/-- A `v1.Endpoints` object: namespace, name (equal to the service name by
the 1:1 convention) and subsets. -/
structure Endpoints where
  ns : String
  name : String
  subsets : List EndpointSubset
deriving DecidableEq

/-- A pod as seen through the Pod View: namespace, name and the node it is
assigned to (`none` while unscheduled). -/
structure Pod where
  ns : String
  name : String
  nodeName : Option String
deriving DecidableEq

/-- ServicesMapper maps a namespace and a pod name to the set of names of
the services targeting the pod, the per-node `map[ns]map[pod]sets.String`
of the Go code; the empty list stands for an absent entry (the Go code
never stores an empty service set: inserts always add a name and deletes
prune emptied pods and namespaces). -/
def ServicesMapper : Type := String → String → List String

/-- The per-node aggregate published to the Mapping Cache. -/
structure MetadataMapperBundle where
  services : ServicesMapper

/-- Modelled from the spec: `newMetadataMapperBundle` of the missing
controller implementation, the empty per-node bundle created lazily on the
first write for a node. -/
def newMetadataMapperBundle : MetadataMapperBundle :=
  ⟨fun _ _ => []⟩

/-- The state the controller reads and writes: the Node, Pod and Endpoint
Views (indexed snapshots kept by the informers) and the Mapping Cache,
keyed by node name (`none` is a cache miss). -/
structure ControllerState where
  nodeNames : List String
  pods : List Pod
  endpoints : List Endpoints
  cache : String → Option MetadataMapperBundle

/-- Point lookup in the Endpoint View by namespace and name, the
`endpointsLister.Endpoints(ns).Get(name)` of the controller. -/
def findEndpoints (eps : List Endpoints) (ns name : String) : Option Endpoints :=
  eps.find? (fun e => e.ns = ns ∧ e.name = name)

/-- Point lookup in the Pod View by a target reference. -/
def lookupPod (pods : List Pod) (ref : TargetRef) : Option Pod :=
  pods.find? (fun p => p.ns = ref.ns ∧ p.name = ref.name)

/-- Modelled from the spec: address-to-node resolution of the missing
controller implementation, in the spec's order — (a) the address's direct
node identifier when present, (b) otherwise the assigned host of the
referenced pod via the Pod View, (c) otherwise unresolvable. -/
def resolveNode (pods : List Pod) (a : EndpointAddress) : Option String :=
  match a.nodeName with
  | some n => some n
  | none =>
    match a.targetRef with
    | some ref => (lookupPod pods ref).bind Pod.nodeName
    | none => none

/-- One resolved address of an endpoints object: the owning node, the
referenced pod's namespace and name, and the service name it contributes. -/
structure Contrib where
  node : String
  ns : String
  pod : String
  svc : String
deriving DecidableEq

/-- Modelled from the spec: the address scan of the missing controller's
`mapEndpoints` — for each subset, for each address, skip addresses with no
pod reference or no resolvable node, and record (node, pod namespace, pod
name, service name) for the rest. -/
def contributions (pods : List Pod) (ep : Endpoints) : List Contrib :=
  ep.subsets.flatMap (fun ss =>
    ss.addresses.filterMap (fun a =>
      match a.targetRef with
      | none => none
      | some ref =>
        match resolveNode pods a with
        | none => none
        | some node => some ⟨node, ref.ns, ref.name, ep.name⟩))

/-- Insertion of one service name for one pod into a ServicesMapper, the
Go `ServicesMapper.Set`. -/
def mapperSet (ns pod svc : String) (m : ServicesMapper) : ServicesMapper :=
  fun n p => if n = ns then (if p = pod then ssInsert svc (m n p) else m n p) else m n p

/-- Folding a node's share of a contribution list into a ServicesMapper:
the per-node merge loop of the missing controller's `mapEndpoints`.  The
in-repo test (cases "pod added to existing service and node" and "add
service to existing node and pod" of TestMetadataControllerSyncEndpoints)
pins this merge-into-the-existing-bundle behaviour, overriding the spec's
recompute-from-scratch wording. -/
def applyContribs : List Contrib → String → ServicesMapper → ServicesMapper
  | [], _, m => m
  | c :: cs, node, m =>
    applyContribs cs node (if c.node = node then mapperSet c.ns c.pod c.svc m else m)

/-- Namespace-scoped removal of a service name from a ServicesMapper, the
Go `ServicesMapper.Delete(namespace, svcName)`: the name is removed from
every pod of the given namespace, emptied pods and namespaces disappear
(here: become empty rows).  The in-repo test (case "delete service with
pods on multiple nodes") pins the namespace scoping: a pod of another
namespace keeps the name. -/
def mapperDeleteSvc (ns svc : String) (m : ServicesMapper) : ServicesMapper :=
  fun n p => if n = ns then ssRemove svc (m n p) else m n p

/-- The ServicesMapper a node's cache entry holds, the empty mapper on a
cache miss. -/
def getServices (cache : String → Option MetadataMapperBundle) (node : String) :
    ServicesMapper :=
  match cache node with
  | some b => b.services
  | none => fun _ _ => []

/-- Modelled from the spec: `mapEndpoints` of the missing controller
implementation, constrained by the in-repo test — resolve the object's
addresses, group them by node, and for each node with a contribution merge
that contribution into the node's cached bundle (created empty on a cache
miss) and publish the result in a single put; nodes without a contribution
are untouched. -/
def mapEndpoints (s : ControllerState) (ep : Endpoints) : ControllerState :=
  { s with cache := fun node =>
      if node ∈ (contributions s.pods ep).map Contrib.node then
        some ⟨applyContribs (contributions s.pods ep) node (getServices s.cache node)⟩
      else
        s.cache node }

/-- Modelled from the spec: `mapDeletedEndpoints` of the missing controller
implementation, constrained by the in-repo test — for every node of the
Node View (the test bootstraps all nodes into the node informer for this
path) remove the deleted object's service name from the namespace of the
deleted object in the node's cached bundle, if any; cache misses stay
misses. -/
def mapDeletedEndpoints (s : ControllerState) (ns name : String) : ControllerState :=
  { s with cache := fun node =>
      if node ∈ s.nodeNames then
        (s.cache node).map (fun b => ⟨mapperDeleteSvc ns name b.services⟩)
      else
        s.cache node }

/-- Modelled from the spec: `syncEndpoints` of the missing controller
implementation — resolve the key to a namespace/name pair (the key is kept
split here; `MetaNamespaceKeyFunc` and `SplitMetaNamespaceKey` are inverse),
look the object up in the Endpoint View, and map it when present or map its
deletion when absent.  Lister errors other than not-found cannot arise from
the pure view data, so the error return of the Go function is not modelled. -/
def syncEndpoints (s : ControllerState) (ns name : String) : ControllerState :=
  match findEndpoints s.endpoints ns name with
  | some ep => mapEndpoints s ep
  | none => mapDeletedEndpoints s ns name

/-- Modelled from the spec: the from-scratch recompute the specification's
words describe for a node's bundle — "iterate the full currently-known
Endpoints collection, re-deriving the node's ServicesMapper from scratch".
Stated only to be compared with the behaviour the in-repo test pins; it is
not what the code does. -/
def specRecomputeBundle (pods : List Pod) (eps : List Endpoints) (node : String) :
    ServicesMapper :=
  applyContribs (eps.flatMap (contributions pods)) node (fun _ _ => [])

/-- Modelled from the spec: `MetadataMapperBundle.ServicesForPod` of the
missing implementation — the list of service names mapped to the pod (raw,
unprefixed, sorted since `sets.String.List` sorts) and whether the
namespace and pod are present in the bundle (presence is non-emptiness
under the canonical representation). -/
def ServicesForPod (b : MetadataMapperBundle) (ns pod : String) :
    List String × Bool :=
  (b.services ns pod, !(b.services ns pod).isEmpty)

/-- Modelled from the spec: `GetPodMetadataNames` — the per-pod tag lookup
over the Mapping Cache.  A cache miss, or a bundle without the namespace or
pod, yields the empty list; each service name found yields the tag
`kube_service:<name>`; the second component is the error return of the Go
function, which no lookup outcome sets. -/
def GetPodMetadataNames (cache : String → Option MetadataMapperBundle)
    (node ns pod : String) : List String × Option String :=
  match cache node with
  | none => ([], none)
  | some b =>
    let sp := ServicesForPod b ns pod
    if sp.2 then ((sp.1).map (fun s => "kube_service:" ++ s), none) else ([], none)

/-- Modelled from the spec: `GetMetadataMapBundleOnAllNodes` — assembly of
the cluster-wide snapshot.  `lookup` is one node's fetch from the Mapping
Cache: an error, a cache miss (`ok none`, treated as an empty bundle) or a
bundle.  Per-node errors are collected next to the successful results;
no failure aborts the walk. -/
def GetMetadataMapBundleOnAllNodes (nodes : List String)
    (lookup : String → Except String (Option MetadataMapperBundle)) :
    List (String × MetadataMapperBundle) × List (String × String) :=
  match nodes with
  | [] => ([], [])
  | n :: rest =>
    let acc := GetMetadataMapBundleOnAllNodes rest lookup
    match lookup n with
    | Except.ok ob => ((n, ob.getD newMetadataMapperBundle) :: acc.1, acc.2)
    | Except.error e => (acc.1, (n, e) :: acc.2)

/-- Modelled from the spec: the Work Queue (the client-go rate-limited
workqueue the controller uses) — a FIFO of pending keys, the `dirty` set of
keys needing a run, and the `processing` set of in-flight keys. -/
structure WorkQueue where
  queue : List String
  dirty : List String
  processing : List String

/-- The queue the controller starts with. -/
def wqEmpty : WorkQueue :=
  ⟨[], [], []⟩

/-- Modelled from the spec: `enqueue(key)` — a key already marked dirty
collapses into the pending item; a key currently processing is marked
dirty but not queued (it will be re-queued when its run completes); any
other key is appended to the FIFO. -/
def wqAdd (k : String) (wq : WorkQueue) : WorkQueue :=
  if k ∈ wq.dirty then wq
  else
    { queue := if k ∈ wq.processing then wq.queue else wq.queue ++ [k]
      dirty := k :: wq.dirty
      processing := wq.processing }

/-- Modelled from the spec: `dequeue()` — pop the FIFO head, mark it
in-flight and clear its dirty mark; `none` when nothing is pending. -/
def wqGet (wq : WorkQueue) : Option String × WorkQueue :=
  match wq.queue with
  | [] => (none, wq)
  | k :: rest =>
    (some k,
      { queue := rest
        dirty := wq.dirty.erase k
        processing := k :: wq.processing })

/-- Modelled from the spec: `markDone(handle)` — drop the key's in-flight
marker; a key re-enqueued while it was processing (still dirty) is
appended to the FIFO for exactly one further run. -/
def wqDone (k : String) (wq : WorkQueue) : WorkQueue :=
  { queue := if k ∈ wq.dirty then wq.queue ++ [k] else wq.queue
    dirty := wq.dirty
    processing := wq.processing.erase k }

/-- n-fold enqueue of the same key. -/
def wqAddN : Nat → String → WorkQueue → WorkQueue
  | 0, _, wq => wq
  | n + 1, k, wq => wqAddN n k (wqAdd k wq)

/-- The queue states produced by the queue's own interface: `wqDone` is
only ever called by the dispatcher on the key of the run it completes. -/
inductive WqReachable : WorkQueue → Prop
  | empty : WqReachable wqEmpty
  | add (k : String) {wq : WorkQueue} : WqReachable wq → WqReachable (wqAdd k wq)
  | get {wq : WorkQueue} : WqReachable wq → WqReachable (wqGet wq).2
  | done (k : String) {wq : WorkQueue} : WqReachable wq → k ∈ wq.processing →
      WqReachable (wqDone k wq)

/-- The structural invariant of the work queue: the FIFO holds no
duplicates, only dirty keys, and no in-flight key; the dirty and in-flight
sets hold no duplicates. -/
def WqInv (wq : WorkQueue) : Prop :=
  wq.queue.Nodup ∧ (∀ k ∈ wq.queue, k ∈ wq.dirty) ∧
    (∀ k ∈ wq.queue, k ∉ wq.processing) ∧ wq.dirty.Nodup ∧ wq.processing.Nodup

/-- Well-formed Mapping Cache: every stored service set is canonical
(strictly sorted, hence duplicate-free), as `sets.String.List` guarantees
in the Go code. -/
def WFCache (cache : String → Option MetadataMapperBundle) : Prop :=
  ∀ node b, cache node = some b → ∀ n p, List.Sorted sLt (b.services n p)

/-- The service set the cache associates to a (node, namespace, pod)
triple, the empty set on a cache miss. -/
def cacheServices (cache : String → Option MetadataMapperBundle)
    (node ns pod : String) : List String :=
  getServices cache node ns pod

/-- Fake pod `pod1` of TestMetadataControllerSyncEndpoints. -/
def pod1 : Pod := ⟨"default", "pod1_name", none⟩

/-- Fake pod `pod2` of TestMetadataControllerSyncEndpoints. -/
def pod2 : Pod := ⟨"default", "pod2_name", none⟩

/-- Fake pod `pod3` of TestMetadataControllerSyncEndpoints. -/
def pod3 : Pod := ⟨"datadog-system", "pod3_name", none⟩

/-- The `svc1` endpoints of test case "one service on multiple nodes":
addresses on node1 (pod1) and node2 (pod2). -/
def epSvc1A : Endpoints :=
  ⟨"default", "svc1",
    [⟨[⟨some "node1", some ⟨"default", "pod1_name"⟩⟩,
       ⟨some "node2", some ⟨"default", "pod2_name"⟩⟩]⟩]⟩

/-- The replacement `svc1` endpoints of test case "pod added to existing
service and node": a single address on node1 for pod3. -/
def epSvc1B : Endpoints :=
  ⟨"default", "svc1",
    [⟨[⟨some "node1", some ⟨"datadog-system", "pod3_name"⟩⟩]⟩]⟩

/-- The `svc2` endpoints of test case "add service to existing node and
pod": a single address on node1 for pod1. -/
def epSvc2 : Endpoints :=
  ⟨"default", "svc2",
    [⟨[⟨some "node1", some ⟨"default", "pod1_name"⟩⟩]⟩]⟩

/-- The initial state of TestMetadataControllerSyncEndpoints: three nodes
bootstrapped into the Node View, the three fake pods, `svc1` just added,
empty cache. -/
def stateA0 : ControllerState :=
  ⟨["node1", "node2", "node3"], [pod1, pod2, pod3], [epSvc1A], fun _ => none⟩

/-- After reconciling test case "one service on multiple nodes". -/
def stateA1 : ControllerState := syncEndpoints stateA0 "default" "svc1"

/-- After replacing `svc1` in the Endpoint View with `epSvc1B` and
reconciling (test case "pod added to existing service and node"). -/
def stateA2 : ControllerState :=
  syncEndpoints { stateA1 with endpoints := [epSvc1B] } "default" "svc1"

/-- After adding `svc2` and reconciling (test case "add service to
existing node and pod"). -/
def stateA3 : ControllerState :=
  syncEndpoints { stateA2 with endpoints := [epSvc1B, epSvc2] } "default" "svc2"

/-- After deleting `svc1` from the Endpoint View and reconciling (test
case "delete service with pods on multiple nodes"). -/
def stateA4 : ControllerState :=
  syncEndpoints { stateA3 with endpoints := [epSvc2] } "default" "svc1"

/-- An endpoints object named `svc1` living in namespace `ns-a` whose one
address is the pod `default/podX` on node2. -/
def epSvcB : Endpoints :=
  ⟨"ns-a", "svc1", [⟨[⟨some "node2", some ⟨"default", "podX"⟩⟩]⟩]⟩

/-- Two nodes, the `ns-a/svc1` object in the Endpoint View, empty cache. -/
def stateB0 : ControllerState :=
  ⟨["node1", "node2"], [], [epSvcB], fun _ => none⟩

/-- After reconciling `ns-a/svc1`: node2 maps `default/podX` to `svc1`. -/
def stateB1 : ControllerState := syncEndpoints stateB0 "ns-a" "svc1"

/-- After reconciling the key `default/svc1`, an Endpoints object that
never existed in the view: the deletion path runs for it. -/
def stateB2 : ControllerState := syncEndpoints stateB1 "default" "svc1"

/-- The cache of the formatting witness: one node `host1` whose bundle maps
`default/nginx` to the two services of TestMetadataController. -/
def bundleW4 : MetadataMapperBundle :=
  ⟨fun n p => if n = "default" ∧ p = "nginx" then ["nginx-1", "nginx-2"] else []⟩

/-- Cache holding exactly `bundleW4` under node `host1`. -/
def cacheW4 : String → Option MetadataMapperBundle :=
  fun node => if node = "host1" then some bundleW4 else none

/-- A bundle used by the accumulation witness: `default/pod1_name` already
mapped to `svc1`. -/
def bundleW3 : MetadataMapperBundle :=
  ⟨fun n p => if n = "default" ∧ p = "pod1_name" then ["svc1"] else []⟩

/-- Cache of the accumulation witness: only node1 has a bundle. -/
def cacheW3 : String → Option MetadataMapperBundle :=
  fun node => if node = "node1" then some bundleW3 else none

/-- State of the accumulation witness: `svc2` in the Endpoint View,
node1's bundle already maps pod1 to `svc1`. -/
def stateW3 : ControllerState :=
  ⟨["node1"], [], [epSvc2], cacheW3⟩

/-- Bundle of the bulk-snapshot witness. -/
def bundleW8 : MetadataMapperBundle :=
  ⟨fun _ _ => ["svc1"]⟩

/-- Per-node lookup of the bulk-snapshot witness: one erroring node, one
cache miss, one hit. -/
def lookupW8 : String → Except String (Option MetadataMapperBundle) :=
  fun node =>
    if node = "n1" then Except.error "connection refused"
    else if node = "n2" then Except.ok none
    else Except.ok (some bundleW8)

/-- The queue of the concurrency witness: key `a` enqueued and handed to a
worker, hence in flight. -/
def wqW : WorkQueue := (wqGet (wqAdd "a" wqEmpty)).2

theorem charListLt_irrefl (l : List Char) : charListLt l l = false := by
  induction l with
  | nil => rfl
  | cons c cs ih => simp [charListLt, Nat.lt_irrefl, ih]

theorem charListLt_trans {l1 l2 l3 : List Char} (h1 : charListLt l1 l2 = true)
    (h2 : charListLt l2 l3 = true) : charListLt l1 l3 = true := by
  induction l1 generalizing l2 l3 with
  | nil =>
    cases l2 with
    | nil => exact absurd h1 (by simp [charListLt])
    | cons d ds =>
      cases l3 with
      | nil => exact absurd h2 (by simp [charListLt])
      | cons e es => rfl
  | cons c cs ih =>
    cases l2 with
    | nil => exact absurd h1 (by simp [charListLt])
    | cons d ds =>
      cases l3 with
      | nil => exact absurd h2 (by simp [charListLt])
      | cons e es =>
        simp only [charListLt] at h1 h2 ⊢
        by_cases hcd : c.toNat < d.toNat
        · by_cases hde : d.toNat < e.toNat
          · simp [Nat.lt_trans hcd hde]
          · by_cases hed : e.toNat < d.toNat
            · simp [hde, hed] at h2
            · have hce : c.toNat < e.toNat := by omega
              simp [hce]
        · by_cases hdc : d.toNat < c.toNat
          · simp [hcd, hdc] at h1
          · simp only [if_neg hcd, if_neg hdc] at h1
            by_cases hde : d.toNat < e.toNat
            · have hce : c.toNat < e.toNat := by omega
              simp [hce]
            · by_cases hed : e.toNat < d.toNat
              · simp [hde, hed] at h2
              · simp only [if_neg hde, if_neg hed] at h2
                have h3 : ¬ c.toNat < e.toNat := by omega
                have h4 : ¬ e.toNat < c.toNat := by omega
                simp only [if_neg h3, if_neg h4]
                exact ih h1 h2

theorem charListLt_asymm {l1 l2 : List Char} (h1 : charListLt l1 l2 = true)
    (h2 : charListLt l2 l1 = true) : False := by
  have h3 := charListLt_trans h1 h2
  rw [charListLt_irrefl] at h3
  exact Bool.noConfusion h3

theorem charListLt_connex {l1 l2 : List Char} (h : l1 ≠ l2) :
    charListLt l1 l2 = true ∨ charListLt l2 l1 = true := by
  induction l1 generalizing l2 with
  | nil =>
    cases l2 with
    | nil => exact absurd rfl h
    | cons d ds => exact Or.inl rfl
  | cons c cs ih =>
    cases l2 with
    | nil => exact Or.inr rfl
    | cons d ds =>
      by_cases hcd : c.toNat < d.toNat
      · exact Or.inl (by simp [charListLt, hcd])
      · by_cases hdc : d.toNat < c.toNat
        · exact Or.inr (by simp [charListLt, hdc])
        · have h5 : c.toNat = d.toNat := by omega
          have hc : c = d := Char.eq_of_val_eq (UInt32.ext h5)
          subst hc
          have hne : cs ≠ ds := fun hh => h (by rw [hh])
          rcases ih hne with h' | h'
          · refine Or.inl ?_
            simp [charListLt, Nat.lt_irrefl]
            exact h'
          · refine Or.inr ?_
            simp [charListLt, Nat.lt_irrefl]
            exact h'

theorem sLt_trans {a b c : String} (h1 : sLt a b) (h2 : sLt b c) : sLt a c :=
  charListLt_trans h1 h2

theorem sLt_asymm {a b : String} (h1 : sLt a b) (h2 : sLt b a) : False :=
  charListLt_asymm h1 h2

theorem sLt_irrefl (a : String) : ¬ sLt a a := by
  intro hc
  have hc2 : charListLt a.data a.data = true := hc
  rw [charListLt_irrefl] at hc2
  exact Bool.noConfusion hc2

theorem sLt_connex {a b : String} (h : a ≠ b) : sLt a b ∨ sLt b a :=
  charListLt_connex (fun hd => h (by cases a; cases b; exact congrArg String.mk hd))

theorem mem_ssInsert (x a : String) (l : List String) :
    x ∈ ssInsert a l ↔ x = a ∨ x ∈ l := by
  induction l with
  | nil => simp [ssInsert]
  | cons b t ih =>
    rw [ssInsert]
    by_cases hab : a = b
    · subst hab
      rw [if_pos rfl]
      simp only [List.mem_cons]
      tauto
    · rw [if_neg hab]
      by_cases hlt : strLt a b = true
      · rw [if_pos hlt]
        simp only [List.mem_cons]
      · rw [if_neg hlt]
        simp only [List.mem_cons, ih]
        tauto

theorem sorted_ssInsert (a : String) (l : List String)
    (h : List.Sorted sLt l) : List.Sorted sLt (ssInsert a l) := by
  induction l with
  | nil => exact List.sorted_singleton a
  | cons b t ih =>
    rw [List.sorted_cons] at h
    rw [ssInsert]
    by_cases hab : a = b
    · subst hab
      rw [if_pos rfl]
      exact List.sorted_cons.2 h
    · rw [if_neg hab]
      by_cases hlt : strLt a b = true
      · rw [if_pos hlt]
        refine List.sorted_cons.2 ⟨?_, List.sorted_cons.2 h⟩
        intro x hx
        rcases List.mem_cons.1 hx with rfl | hx
        · exact hlt
        · exact sLt_trans hlt (h.1 x hx)
      · have hba : sLt b a := by
          rcases sLt_connex hab with h1 | h1
          · exact absurd h1 hlt
          · exact h1
        rw [if_neg hlt]
        refine List.sorted_cons.2 ⟨?_, ih h.2⟩
        intro x hx
        rcases (mem_ssInsert x a t).1 hx with rfl | hx
        · exact hba
        · exact h.1 x hx

theorem mem_ssRemove (x a : String) (l : List String) :
    x ∈ ssRemove a l ↔ x ∈ l ∧ x ≠ a := by
  induction l with
  | nil => simp [ssRemove]
  | cons b t ih =>
    by_cases hba : b = a
    · subst hba
      simp [ssRemove, ih]
      tauto
    · simp [ssRemove, hba, ih]
      constructor
      · rintro (rfl | h)
        · exact ⟨Or.inl rfl, hba⟩
        · exact ⟨Or.inr h.1, h.2⟩
      · rintro ⟨rfl | h1, h2⟩
        · exact Or.inl rfl
        · exact Or.inr ⟨h1, h2⟩

theorem ssRemove_sublist (a : String) (l : List String) :
    List.Sublist (ssRemove a l) l := by
  induction l with
  | nil => simp [ssRemove]
  | cons b t ih =>
    by_cases hba : b = a
    · simp only [ssRemove, if_pos hba]
      exact ih.cons b
    · simp only [ssRemove, if_neg hba]
      exact ih.cons₂ b

theorem sorted_ssRemove (a : String) (l : List String)
    (h : List.Sorted sLt l) : List.Sorted sLt (ssRemove a l) :=
  h.sublist (ssRemove_sublist a l)

theorem ssRemove_idem (a : String) (l : List String) :
    ssRemove a (ssRemove a l) = ssRemove a l := by
  induction l with
  | nil => rfl
  | cons b t ih =>
    by_cases hba : b = a
    · simp [ssRemove, hba, ih]
    · simp [ssRemove, hba, ih]

theorem ssRemove_eq_self (a : String) (l : List String) (h : a ∉ l) :
    ssRemove a l = l := by
  induction l with
  | nil => rfl
  | cons b t ih =>
    have hba : b ≠ a := fun hb => h (hb ▸ List.mem_cons_self b t)
    simp only [ssRemove, if_neg hba]
    rw [ih (fun ha => h (List.mem_cons_of_mem b ha))]

/-- Canonical sorted duplicate-free lists are determined by membership. -/
theorem sorted_mem_ext : ∀ {l l' : List String}, List.Sorted sLt l →
    List.Sorted sLt l' → (∀ x, x ∈ l ↔ x ∈ l') → l = l' := by
  intro l
  induction l with
  | nil =>
    intro l' _ _ hm
    cases l' with
    | nil => rfl
    | cons b t => exact absurd ((hm b).2 (List.mem_cons_self b t)) (List.not_mem_nil b)
  | cons a t ih =>
    intro l' h h' hm
    cases l' with
    | nil => exact absurd ((hm a).1 (List.mem_cons_self a t)) (List.not_mem_nil a)
    | cons b t' =>
      have hab : a = b := by
        by_contra hne
        have ha : a ∈ b :: t' := (hm a).1 (List.mem_cons_self a t)
        have hb : b ∈ a :: t := (hm b).2 (List.mem_cons_self b t')
        rcases List.mem_cons.1 ha with h1 | h1
        · exact hne h1
        · rcases List.mem_cons.1 hb with h2 | h2
          · exact hne h2.symm
          · exact sLt_asymm (List.rel_of_sorted_cons h' a h1)
              (List.rel_of_sorted_cons h b h2)
      subst hab
      have hm2 : ∀ x, x ∈ t ↔ x ∈ t' := by
        intro x
        constructor
        · intro hx
          have hx2 := (hm x).1 (List.mem_cons_of_mem a hx)
          rcases List.mem_cons.1 hx2 with h1 | h1
          · subst h1
            exact absurd (List.rel_of_sorted_cons h x hx) (sLt_irrefl x)
          · exact h1
        · intro hx
          have hx2 := (hm x).2 (List.mem_cons_of_mem a hx)
          rcases List.mem_cons.1 hx2 with h1 | h1
          · subst h1
            exact absurd (List.rel_of_sorted_cons h' x hx) (sLt_irrefl x)
          · exact h1
      rw [ih h.of_cons h'.of_cons hm2]

theorem mem_mapperSet (x ns pod svc n p : String) (m : ServicesMapper) :
    x ∈ mapperSet ns pod svc m n p ↔
      x ∈ m n p ∨ (n = ns ∧ p = pod ∧ x = svc) := by
  unfold mapperSet
  by_cases h1 : n = ns
  · by_cases h2 : p = pod
    · subst h1
      subst h2
      rw [if_pos rfl, if_pos rfl, mem_ssInsert]
      tauto
    · subst h1
      rw [if_pos rfl, if_neg h2]
      tauto
  · rw [if_neg h1]
    tauto

theorem mapperSet_frame (ns pod svc n p : String) (m : ServicesMapper)
    (h : ¬(n = ns ∧ p = pod)) : mapperSet ns pod svc m n p = m n p := by
  unfold mapperSet
  by_cases h1 : n = ns
  · by_cases h2 : p = pod
    · exact absurd ⟨h1, h2⟩ h
    · rw [if_pos h1, if_neg h2]
  · rw [if_neg h1]

theorem sorted_mapperSet (ns pod svc : String) (m : ServicesMapper)
    (hm : ∀ n p, List.Sorted sLt (m n p)) (n p : String) :
    List.Sorted sLt (mapperSet ns pod svc m n p) := by
  unfold mapperSet
  by_cases h1 : n = ns
  · by_cases h2 : p = pod
    · rw [if_pos h1, if_pos h2]
      exact sorted_ssInsert svc _ (hm n p)
    · rw [if_pos h1, if_neg h2]
      exact hm n p
  · rw [if_neg h1]
    exact hm n p

theorem mem_applyContribs (cs : List Contrib) (node x n p : String)
    (m : ServicesMapper) :
    x ∈ applyContribs cs node m n p ↔
      x ∈ m n p ∨ ∃ c ∈ cs, c.node = node ∧ c.ns = n ∧ c.pod = p ∧ c.svc = x := by
  induction cs generalizing m with
  | nil => simp [applyContribs]
  | cons c cs ih =>
    rw [applyContribs, ih]
    by_cases hc : c.node = node
    · rw [if_pos hc]
      simp only [mem_mapperSet, List.exists_mem_cons_iff, hc]
      tauto
    · rw [if_neg hc]
      simp only [List.exists_mem_cons_iff, hc]
      tauto

theorem applyContribs_frame (cs : List Contrib) (node n p : String)
    (m : ServicesMapper)
    (h : ∀ c ∈ cs, ¬(c.node = node ∧ c.ns = n ∧ c.pod = p)) :
    applyContribs cs node m n p = m n p := by
  induction cs generalizing m with
  | nil => rfl
  | cons c cs ih =>
    rw [applyContribs, ih _ (fun c2 hc2 => h c2 (List.mem_cons_of_mem c hc2))]
    by_cases hc : c.node = node
    · rw [if_pos hc]
      exact mapperSet_frame c.ns c.pod c.svc n p m
        (fun hh => h c (List.mem_cons_self c cs) ⟨hc, hh.1.symm, hh.2.symm⟩)
    · rw [if_neg hc]

theorem sorted_applyContribs (cs : List Contrib) (node : String)
    (m : ServicesMapper) (hm : ∀ n p, List.Sorted sLt (m n p)) (n p : String) :
    List.Sorted sLt (applyContribs cs node m n p) := by
  induction cs generalizing m with
  | nil => exact hm n p
  | cons c cs ih =>
    rw [applyContribs]
    apply ih
    intro n2 p2
    by_cases hc : c.node = node
    · rw [if_pos hc]
      exact sorted_mapperSet c.ns c.pod c.svc m hm n2 p2
    · rw [if_neg hc]
      exact hm n2 p2

theorem applyContribs_idem (cs : List Contrib) (node : String)
    (m : ServicesMapper) (hm : ∀ n p, List.Sorted sLt (m n p)) :
    applyContribs cs node (applyContribs cs node m) = applyContribs cs node m := by
  funext n p
  apply sorted_mem_ext
    (sorted_applyContribs cs node _ (sorted_applyContribs cs node m hm) n p)
    (sorted_applyContribs cs node m hm n p)
  intro x
  rw [mem_applyContribs, mem_applyContribs]
  tauto

theorem mapperDeleteSvc_idem (ns svc : String) (m : ServicesMapper) :
    mapperDeleteSvc ns svc (mapperDeleteSvc ns svc m) = mapperDeleteSvc ns svc m := by
  funext n p
  unfold mapperDeleteSvc
  by_cases h : n = ns
  · rw [if_pos h, if_pos h, ssRemove_idem]
  · rw [if_neg h, if_neg h]

theorem mapperDeleteSvc_eq_self (ns svc : String) (m : ServicesMapper)
    (h : ∀ p, svc ∉ m ns p) : mapperDeleteSvc ns svc m = m := by
  funext n p
  unfold mapperDeleteSvc
  by_cases h1 : n = ns
  · subst h1
    rw [if_pos rfl]
    exact ssRemove_eq_self svc (m n p) (h p)
  · rw [if_neg h1]

theorem sorted_getServices (cache : String → Option MetadataMapperBundle)
    (hwf : WFCache cache) (node n p : String) :
    List.Sorted sLt (getServices cache node n p) := by
  unfold getServices
  cases hc : cache node with
  | none => exact List.sorted_nil
  | some b => exact hwf node b hc n p

theorem syncEndpoints_of_found {s : ControllerState} {ns name : String}
    {ep : Endpoints} (h : findEndpoints s.endpoints ns name = some ep) :
    syncEndpoints s ns name = mapEndpoints s ep := by
  unfold syncEndpoints
  rw [h]

theorem syncEndpoints_of_absent {s : ControllerState} {ns name : String}
    (h : findEndpoints s.endpoints ns name = none) :
    syncEndpoints s ns name = mapDeletedEndpoints s ns name := by
  unfold syncEndpoints
  rw [h]

theorem mapEndpoints_cache_mem {s : ControllerState} {ep : Endpoints}
    {node : String} (h : node ∈ (contributions s.pods ep).map Contrib.node) :
    (mapEndpoints s ep).cache node =
      some ⟨applyContribs (contributions s.pods ep) node (getServices s.cache node)⟩ := by
  unfold mapEndpoints
  exact if_pos h

theorem mapEndpoints_cache_other {s : ControllerState} {ep : Endpoints}
    {node : String} (h : node ∉ (contributions s.pods ep).map Contrib.node) :
    (mapEndpoints s ep).cache node = s.cache node := by
  unfold mapEndpoints
  exact if_neg h

theorem mapDeletedEndpoints_cache_mem {s : ControllerState} {ns name node : String}
    (h : node ∈ s.nodeNames) :
    (mapDeletedEndpoints s ns name).cache node =
      (s.cache node).map (fun b => ⟨mapperDeleteSvc ns name b.services⟩) := by
  unfold mapDeletedEndpoints
  exact if_pos h

theorem mapDeletedEndpoints_cache_other {s : ControllerState} {ns name node : String}
    (h : node ∉ s.nodeNames) :
    (mapDeletedEndpoints s ns name).cache node = s.cache node := by
  unfold mapDeletedEndpoints
  exact if_neg h

/-- Reconciliation preserves the canonical-representation invariant of the
Mapping Cache; it justifies the well-formedness hypotheses of the theorems
below, which hold in every reachable cache state. -/
theorem syncEndpoints_wf (s : ControllerState) (ns name : String)
    (hwf : WFCache s.cache) : WFCache (syncEndpoints s ns name).cache := by
  cases hfind : findEndpoints s.endpoints ns name with
  | some ep =>
    rw [syncEndpoints_of_found hfind]
    intro node b heq n p
    by_cases hn : node ∈ (contributions s.pods ep).map Contrib.node
    · rw [mapEndpoints_cache_mem hn] at heq
      cases heq
      exact sorted_applyContribs _ _ _ (fun n2 p2 => sorted_getServices s.cache hwf node n2 p2) n p
    · rw [mapEndpoints_cache_other hn] at heq
      exact hwf node b heq n p
  | none =>
    rw [syncEndpoints_of_absent hfind]
    intro node b heq n p
    by_cases hn : node ∈ s.nodeNames
    · rw [mapDeletedEndpoints_cache_mem hn] at heq
      cases hb : s.cache node with
      | none => rw [hb] at heq; exact Option.noConfusion heq
      | some b0 =>
        rw [hb] at heq
        cases heq
        show List.Sorted sLt (mapperDeleteSvc ns name b0.services n p)
        unfold mapperDeleteSvc
        by_cases h1 : n = ns
        · rw [if_pos h1]
          exact sorted_ssRemove name _ (hwf node b0 hb n p)
        · rw [if_neg h1]
          exact hwf node b0 hb n p
    · rw [mapDeletedEndpoints_cache_other hn] at heq
      exact hwf node b heq n p

/-- C1 (amended): for every node touched by the processed key's current
state, `syncEndpoints` produces that node's bundle by merging the key's
current contributions into the node's previously cached bundle (created
empty on a cache miss): a service name is mapped to a pod afterwards iff it
was mapped before or the key's current endpoints object contributes it.
The bundle is patched, not recomputed from the full Endpoint View, so
entries derived from superseded prior states of the key persist. -/
theorem syncEndpoints_merges_current_contributions
    (s : ControllerState) (ns name : String) (ep : Endpoints)
    (hep : findEndpoints s.endpoints ns name = some ep)
    (node : String)
    (hnode : node ∈ (contributions s.pods ep).map Contrib.node)
    (x n p : String) :
    x ∈ getServices (syncEndpoints s ns name).cache node n p ↔
      x ∈ getServices s.cache node n p ∨
        ∃ c ∈ contributions s.pods ep,
          c.node = node ∧ c.ns = n ∧ c.pod = p ∧ c.svc = x := by
  rw [syncEndpoints_of_found hep]
  have h1 : getServices (mapEndpoints s ep).cache node =
      applyContribs (contributions s.pods ep) node (getServices s.cache node) := by
    unfold getServices
    rw [mapEndpoints_cache_mem hnode]
    rfl
  rw [h1]
  exact mem_applyContribs _ _ _ _ _ _

theorem syncEndpoints_merges_current_contributions_witness :
    findEndpoints stateW3.endpoints "default" "svc2" = some epSvc2 ∧
    "node1" ∈ (contributions stateW3.pods epSvc2).map Contrib.node ∧
    ("svc1" ∈ getServices (syncEndpoints stateW3 "default" "svc2").cache
        "node1" "default" "pod1_name" ↔
      "svc1" ∈ getServices stateW3.cache "node1" "default" "pod1_name" ∨
        ∃ c ∈ contributions stateW3.pods epSvc2,
          c.node = "node1" ∧ c.ns = "default" ∧ c.pod = "pod1_name" ∧ c.svc = "svc1") :=
  ⟨by decide, by decide,
    syncEndpoints_merges_current_contributions stateW3 "default" "svc2" epSvc2
      (by decide) "node1" (by decide) "svc1" "default" "pod1_name"⟩

/-- C1 counterexample: replaying the first two cases of
TestMetadataControllerSyncEndpoints, after the key `default/svc1` is
re-reconciled with a current state that references only `pod3`, node1's
cached bundle still maps `pod1_name` to `svc1` — an entry derived from the
superseded prior state of the key — while the from-scratch recompute of
node1 from the current Endpoint View maps `pod1_name` to nothing.  The
bundle is therefore not a pure function of current view state. -/
theorem syncEndpoints_recompute_counterexample :
    cacheServices stateA2.cache "node1" "default" "pod1_name" = ["svc1"] ∧
    specRecomputeBundle stateA2.pods stateA2.endpoints "node1" "default" "pod1_name" = [] ∧
    cacheServices stateA2.cache "node1" "default" "pod1_name" ≠
      specRecomputeBundle stateA2.pods stateA2.endpoints "node1" "default" "pod1_name" :=
  ⟨by decide, by decide, by decide⟩

/-- C2 (amended): processing the deletion of the Endpoints object `ns/name`
removes the service name from every pod of namespace `ns` in the cached
bundle of every node of the Node View (exactly a namespace-scoped
`ssRemove`, so pods whose service set empties become absent, and a
namespace whose pods all empty becomes an empty row); entries of other
namespaces — including entries the deleted object contributed to pods of
other namespaces — are untouched. -/
theorem mapDeletedEndpoints_removes_in_namespace
    (s : ControllerState) (ns name : String)
    (hep : findEndpoints s.endpoints ns name = none)
    (node : String) (hnode : node ∈ s.nodeNames) (n p : String) :
    name ∉ cacheServices (syncEndpoints s ns name).cache node ns p ∧
    cacheServices (syncEndpoints s ns name).cache node ns p =
      ssRemove name (cacheServices s.cache node ns p) ∧
    (n ≠ ns → cacheServices (syncEndpoints s ns name).cache node n p =
      cacheServices s.cache node n p) := by
  rw [syncEndpoints_of_absent hep]
  have hmain : ∀ n2 p2, cacheServices (mapDeletedEndpoints s ns name).cache node n2 p2 =
      mapperDeleteSvc ns name (getServices s.cache node) n2 p2 := by
    intro n2 p2
    unfold cacheServices getServices
    rw [mapDeletedEndpoints_cache_mem hnode]
    cases s.cache node with
    | none => simp [mapperDeleteSvc, ssRemove]
    | some b => rfl
  refine ⟨?_, ?_, ?_⟩
  · rw [hmain]
    unfold mapperDeleteSvc
    rw [if_pos rfl]
    intro hmem
    exact ((mem_ssRemove name name _).1 hmem).2 rfl
  · rw [hmain]
    unfold mapperDeleteSvc cacheServices
    rw [if_pos rfl]
  · intro hne
    rw [hmain]
    unfold mapperDeleteSvc cacheServices
    rw [if_neg hne]

theorem mapDeletedEndpoints_removes_in_namespace_witness :
    findEndpoints stateB1.endpoints "default" "svc1" = none ∧
    "node2" ∈ stateB1.nodeNames ∧
    "svc1" ∉ cacheServices (syncEndpoints stateB1 "default" "svc1").cache
      "node2" "default" "podX" ∧
    cacheServices (syncEndpoints stateB1 "default" "svc1").cache "node2" "default" "podX" =
      ssRemove "svc1" (cacheServices stateB1.cache "node2" "default" "podX") :=
  ⟨by decide, by decide,
    (mapDeletedEndpoints_removes_in_namespace stateB1 "default" "svc1" (by decide)
      "node2" (by decide) "other" "podX").1,
    (mapDeletedEndpoints_removes_in_namespace stateB1 "default" "svc1" (by decide)
      "node2" (by decide) "other" "podX").2.1⟩

/-- C2 counterexample: replaying TestMetadataControllerSyncEndpoints, the
object `default/svc1` contributed `svc1` to pod `pod3_name` of namespace
`datadog-system` (visible in the cached bundle before the deletion), yet
after the deletion of `default/svc1` is processed that pod still maps to
`svc1`: the deletion removes the name only from pods of the object's own
namespace, not from every pod it had contributed to. -/
theorem svc1_deletion_retains_foreign_namespace_counterexample :
    cacheServices stateA3.cache "node1" "datadog-system" "pod3_name" = ["svc1"] ∧
    findEndpoints [epSvc2] "default" "svc1" = none ∧
    cacheServices stateA4.cache "node1" "datadog-system" "pod3_name" = ["svc1"] :=
  ⟨by decide, by decide, by decide⟩

/-- C3: when the processed key's current state contributes exactly one
address — service `svc2` for a pod already mapped to `svc1` on a node —
that pod's service set becomes exactly `svc1, svc2`, every other pod entry
of that node's bundle is unchanged, and every other node's cached bundle is
unchanged. -/
theorem syncEndpoints_accumulates_service
    (s : ControllerState) (ns name node pns pod : String) (ep : Endpoints)
    (hep : findEndpoints s.endpoints ns name = some ep)
    (hc : contributions s.pods ep = [⟨node, pns, pod, "svc2"⟩])
    (hold : cacheServices s.cache node pns pod = ["svc1"]) :
    cacheServices (syncEndpoints s ns name).cache node pns pod = ["svc1", "svc2"] ∧
    (∀ n p, ¬(n = pns ∧ p = pod) →
      cacheServices (syncEndpoints s ns name).cache node n p =
        cacheServices s.cache node n p) ∧
    (∀ node2, node2 ≠ node → (syncEndpoints s ns name).cache node2 = s.cache node2) := by
  rw [syncEndpoints_of_found hep]
  have hnode : node ∈ (contributions s.pods ep).map Contrib.node := by
    rw [hc]
    exact List.mem_cons_self node []
  have hget : ∀ n2 p2, cacheServices (mapEndpoints s ep).cache node n2 p2 =
      applyContribs (contributions s.pods ep) node (getServices s.cache node) n2 p2 := by
    intro n2 p2
    unfold cacheServices getServices
    rw [mapEndpoints_cache_mem hnode]
    rfl
  refine ⟨?_, ?_, ?_⟩
  · rw [hget, hc]
    simp only [applyContribs, if_true]
    unfold mapperSet
    rw [if_pos rfl, if_pos rfl]
    have h2 : getServices s.cache node pns pod = ["svc1"] := hold
    rw [h2]
    decide
  · intro n p hnp
    rw [hget, hc]
    rw [applyContribs_frame]
    · rfl
    · intro c2 hc2
      rcases List.mem_cons.1 hc2 with rfl | h2
      · intro hh
        exact hnp ⟨hh.2.1.symm, hh.2.2.symm⟩
      · exact absurd h2 (List.not_mem_nil c2)
  · intro node2 hne
    apply mapEndpoints_cache_other
    rw [hc]
    intro hmem
    rcases List.mem_cons.1 hmem with h2 | h2
    · exact hne h2
    · exact absurd h2 (List.not_mem_nil node2)

theorem syncEndpoints_accumulates_service_witness :
    findEndpoints stateW3.endpoints "default" "svc2" = some epSvc2 ∧
    contributions stateW3.pods epSvc2 = [⟨"node1", "default", "pod1_name", "svc2"⟩] ∧
    cacheServices stateW3.cache "node1" "default" "pod1_name" = ["svc1"] ∧
    cacheServices (syncEndpoints stateW3 "default" "svc2").cache
      "node1" "default" "pod1_name" = ["svc1", "svc2"] :=
  ⟨by decide, by decide, by decide,
    (syncEndpoints_accumulates_service stateW3 "default" "svc2" "node1" "default"
      "pod1_name" epSvc2 (by decide) (by decide) (by decide)).1⟩

/-- Applying the per-bundle namespace-scoped removal twice over an optional
cache entry equals applying it once. -/
theorem bundleDeleteMap_idem (ns name : String) (o : Option MetadataMapperBundle) :
    Option.map (fun b => (⟨mapperDeleteSvc ns name b.services⟩ : MetadataMapperBundle))
      (Option.map (fun b => (⟨mapperDeleteSvc ns name b.services⟩ : MetadataMapperBundle)) o) =
    Option.map (fun b => (⟨mapperDeleteSvc ns name b.services⟩ : MetadataMapperBundle)) o := by
  cases o with
  | none => rfl
  | some b => simp [mapperDeleteSvc_idem]

/-- C5: with no change to the Node, Pod and Endpoint Views in between,
running `syncEndpoints` twice in a row for the same key leaves every node's
cached bundle exactly as the first run left it: the merge of an unchanged
contribution set and the namespace-scoped removal are both idempotent, so
the second run is a no-op on the published mappings. -/
theorem syncEndpoints_idempotent (s : ControllerState) (ns name : String)
    (hwf : WFCache s.cache) :
    (syncEndpoints (syncEndpoints s ns name) ns name).cache =
      (syncEndpoints s ns name).cache := by
  cases hfind : findEndpoints s.endpoints ns name with
  | some ep =>
    have h1 : syncEndpoints s ns name = mapEndpoints s ep :=
      syncEndpoints_of_found hfind
    have hfind2 : findEndpoints (mapEndpoints s ep).endpoints ns name = some ep := hfind
    rw [h1, syncEndpoints_of_found hfind2]
    funext node
    by_cases hn : node ∈ (contributions s.pods ep).map Contrib.node
    · have hn2 : node ∈ (contributions (mapEndpoints s ep).pods ep).map Contrib.node := hn
      rw [mapEndpoints_cache_mem hn2, mapEndpoints_cache_mem hn]
      have hg : getServices (mapEndpoints s ep).cache node =
          applyContribs (contributions s.pods ep) node (getServices s.cache node) := by
        unfold getServices
        rw [mapEndpoints_cache_mem hn]
        rfl
      have hmain : applyContribs (contributions (mapEndpoints s ep).pods ep) node
          (getServices (mapEndpoints s ep).cache node) =
          applyContribs (contributions s.pods ep) node (getServices s.cache node) := by
        rw [hg]
        exact applyContribs_idem (contributions s.pods ep) node
          (getServices s.cache node)
          (fun n p => sorted_getServices s.cache hwf node n p)
      rw [hmain]
    · have hn2 : node ∉ (contributions (mapEndpoints s ep).pods ep).map Contrib.node := hn
      rw [mapEndpoints_cache_other hn2, mapEndpoints_cache_other hn]
  | none =>
    have h1 : syncEndpoints s ns name = mapDeletedEndpoints s ns name :=
      syncEndpoints_of_absent hfind
    have hfind2 : findEndpoints (mapDeletedEndpoints s ns name).endpoints ns name = none :=
      hfind
    rw [h1, syncEndpoints_of_absent hfind2]
    funext node
    by_cases hn : node ∈ s.nodeNames
    · have hn2 : node ∈ (mapDeletedEndpoints s ns name).nodeNames := hn
      rw [mapDeletedEndpoints_cache_mem hn2, mapDeletedEndpoints_cache_mem hn]
      exact bundleDeleteMap_idem ns name (s.cache node)
    · have hn2 : node ∉ (mapDeletedEndpoints s ns name).nodeNames := hn
      rw [mapDeletedEndpoints_cache_other hn2, mapDeletedEndpoints_cache_other hn]

theorem syncEndpoints_idempotent_witness :
    WFCache stateB0.cache ∧
    (syncEndpoints (syncEndpoints stateB0 "ns-a" "svc1") "ns-a" "svc1").cache =
      (syncEndpoints stateB0 "ns-a" "svc1").cache :=
  ⟨fun _ _ h => Option.noConfusion h,
    syncEndpoints_idempotent stateB0 "ns-a" "svc1" (fun _ _ h => Option.noConfusion h)⟩

/-- C6 (amended): a reconciliation of a present endpoints object never
alters the cached bundle of a node without a contribution in the object's
current state; a reconciliation of an absent (deleted) object leaves a
node's bundle unchanged whenever no pod of the deleted object's namespace
in that bundle carries the deleted object's name.  (As stated, the claim is
false: the deletion path walks every node of the Node View and removes the
pair (namespace, name) from each cached bundle, so a node bundle holding
the same service name under that namespace from a different Endpoints key
is altered — see the counterexample.) -/
theorem syncEndpoints_untouched_node_frame (s : ControllerState)
    (ns name node : String) :
    (∀ ep, findEndpoints s.endpoints ns name = some ep →
      node ∉ (contributions s.pods ep).map Contrib.node →
      (syncEndpoints s ns name).cache node = s.cache node) ∧
    (findEndpoints s.endpoints ns name = none →
      (∀ b, s.cache node = some b → ∀ p, name ∉ b.services ns p) →
      (syncEndpoints s ns name).cache node = s.cache node) := by
  constructor
  · intro ep hep hnode
    rw [syncEndpoints_of_found hep]
    exact mapEndpoints_cache_other hnode
  · intro hep hclean
    rw [syncEndpoints_of_absent hep]
    by_cases hn : node ∈ s.nodeNames
    · rw [mapDeletedEndpoints_cache_mem hn]
      cases hb : s.cache node with
      | none => rfl
      | some b =>
        show some ⟨mapperDeleteSvc ns name b.services⟩ = some b
        rw [mapperDeleteSvc_eq_self ns name b.services (hclean b hb)]
    · exact mapDeletedEndpoints_cache_other hn

theorem syncEndpoints_untouched_node_frame_witness :
    findEndpoints stateB1.endpoints "ns-a" "svc1" = some epSvcB ∧
    "node1" ∉ (contributions stateB1.pods epSvcB).map Contrib.node ∧
    (syncEndpoints stateB1 "ns-a" "svc1").cache "node1" = stateB1.cache "node1" ∧
    findEndpoints stateB1.endpoints "default" "svc1" = none ∧
    (syncEndpoints stateB1 "default" "svc1").cache "node1" = stateB1.cache "node1" :=
  ⟨by decide, by decide,
    (syncEndpoints_untouched_node_frame stateB1 "ns-a" "svc1" "node1").1 epSvcB
      (by decide) (by decide),
    by decide,
    (syncEndpoints_untouched_node_frame stateB1 "default" "svc1" "node1").2
      (by decide) (fun b hb => Option.noConfusion hb)⟩

/-- C6 counterexample: node2's bundle maps `default/podX` to `svc1`, an
entry contributed solely by the key `ns-a/svc1`; the key `default/svc1`
never had any state (it is absent from the Endpoint View and was never
reconciled before), so node2 is not touched by that key's current or
previous state — yet reconciling `default/svc1` empties node2's entry for
`podX`. -/
theorem deletion_alters_unrelated_node_counterexample :
    findEndpoints stateB1.endpoints "default" "svc1" = none ∧
    cacheServices stateB1.cache "node2" "default" "podX" = ["svc1"] ∧
    cacheServices stateB2.cache "node2" "default" "podX" = [] ∧
    cacheServices stateB2.cache "node2" "default" "podX" ≠
      cacheServices stateB1.cache "node2" "default" "podX" :=
  ⟨by decide, by decide, by decide, by decide⟩

/-- C4: for every (node, namespace, pod) triple, the per-pod tag lookup
returns exactly one tag `kube_service:<name>` per service name in the
pod's mapped service set — the image of the set under the formatter — and
nothing else, with no error; the underlying service-name sequence is
lexicographically sorted (the canonical-representation invariant every
reachable cache satisfies, `syncEndpoints_wf`), so the emitted tag
sequence is sorted by service name. -/
theorem GetPodMetadataNames_formats_sorted
    (cache : String → Option MetadataMapperBundle) (hwf : WFCache cache)
    (node ns pod : String) :
    GetPodMetadataNames cache node ns pod =
      ((cacheServices cache node ns pod).map (fun s => "kube_service:" ++ s), none) ∧
    List.Sorted sLt (cacheServices cache node ns pod) := by
  constructor
  · unfold GetPodMetadataNames cacheServices getServices
    cases hc : cache node with
    | none => rfl
    | some b =>
      by_cases hb : (b.services ns pod).isEmpty
      · have h2 : b.services ns pod = [] := List.isEmpty_iff.1 hb
        simp [ServicesForPod, hb, h2]
      · simp [ServicesForPod, hb]
  · unfold cacheServices
    exact sorted_getServices cache hwf node ns pod

theorem GetPodMetadataNames_formats_sorted_witness :
    WFCache cacheW4 ∧
    GetPodMetadataNames cacheW4 "host1" "default" "nginx" =
      (["kube_service:nginx-1", "kube_service:nginx-2"], none) ∧
    List.Sorted sLt (cacheServices cacheW4 "host1" "default" "nginx") := by
  have hwf : WFCache cacheW4 := by
    intro node b h n p
    unfold cacheW4 at h
    by_cases hn : node = "host1"
    · rw [if_pos hn] at h
      cases h
      show List.Sorted sLt (bundleW4.services n p)
      show List.Sorted sLt (if n = "default" ∧ p = "nginx" then ["nginx-1", "nginx-2"] else [])
      by_cases h2 : n = "default" ∧ p = "nginx"
      · rw [if_pos h2]
        decide
      · rw [if_neg h2]
        exact List.sorted_nil
    · rw [if_neg hn] at h
      exact Option.noConfusion h
  refine ⟨hwf, ?_, (GetPodMetadataNames_formats_sorted cacheW4 hwf "host1" "default" "nginx").2⟩
  rw [(GetPodMetadataNames_formats_sorted cacheW4 hwf "host1" "default" "nginx").1]
  decide

/-- C7: querying tags for a pod on a node with no cached bundle returns the
empty sequence and no error; so does a bundle that lacks the namespace or
the pod (an empty mapped set); and no outcome of the per-pod query ever
sets its error return. -/
theorem GetPodMetadataNames_cache_miss_safe
    (cache : String → Option MetadataMapperBundle) (node ns pod : String) :
    (cache node = none → GetPodMetadataNames cache node ns pod = ([], none)) ∧
    (∀ b, cache node = some b → b.services ns pod = [] →
      GetPodMetadataNames cache node ns pod = ([], none)) ∧
    (GetPodMetadataNames cache node ns pod).2 = none := by
  refine ⟨?_, ?_, ?_⟩
  · intro h
    unfold GetPodMetadataNames
    rw [h]
  · intro b h hempty
    unfold GetPodMetadataNames
    rw [h]
    simp [ServicesForPod, hempty]
  · unfold GetPodMetadataNames
    cases cache node with
    | none => rfl
    | some b =>
      by_cases hb : (b.services ns pod).isEmpty
      · simp [ServicesForPod, hb]
      · simp [ServicesForPod, hb]

theorem GetPodMetadataNames_cache_miss_safe_witness :
    ((fun _ => none) : String → Option MetadataMapperBundle) "nodeZ" = none ∧
    GetPodMetadataNames (fun _ => none) "nodeZ" "default" "web" = ([], none) :=
  ⟨rfl,
    (GetPodMetadataNames_cache_miss_safe (fun _ => none) "nodeZ" "default" "web").1 rfl⟩

/-- C10: `ServicesForPod` returns the pod's service names exactly as stored
in the bundle's ServicesMapper — raw, with no `kube_service:` prefix —
together with a boolean that is true exactly when the namespace and pod are
present (under the canonical representation, when the mapped set is
non-empty); the prefix is added only by the tag-formatting path, whose
output is the image of `ServicesForPod`'s first component under the
formatter. -/
theorem ServicesForPod_raw_names
    (cache : String → Option MetadataMapperBundle) (node ns pod : String)
    (b : MetadataMapperBundle) (hb : cache node = some b) :
    (ServicesForPod b ns pod).1 = b.services ns pod ∧
    ((ServicesForPod b ns pod).2 = true ↔ b.services ns pod ≠ []) ∧
    (GetPodMetadataNames cache node ns pod).1 =
      ((ServicesForPod b ns pod).1).map (fun s => "kube_service:" ++ s) := by
  refine ⟨rfl, ?_, ?_⟩
  · unfold ServicesForPod
    simp
  · unfold GetPodMetadataNames
    rw [hb]
    by_cases h2 : (b.services ns pod).isEmpty
    · have h3 : b.services ns pod = [] := List.isEmpty_iff.1 h2
      simp [ServicesForPod, h2, h3]
    · simp [ServicesForPod, h2]

theorem ServicesForPod_raw_names_witness :
    cacheW4 "host1" = some bundleW4 ∧
    ServicesForPod bundleW4 "default" "nginx" = (["nginx-1", "nginx-2"], true) ∧
    (GetPodMetadataNames cacheW4 "host1" "default" "nginx").1 =
      ((ServicesForPod bundleW4 "default" "nginx").1).map
        (fun s => "kube_service:" ++ s) :=
  ⟨rfl, by decide,
    (ServicesForPod_raw_names cacheW4 "host1" "default" "nginx" bundleW4 rfl).2.2⟩

/-- C8: the bulk snapshot walks every known node: the fetched bundles and
the per-node errors together account for every node (one entry each, so a
failing node never aborts the call or discards other nodes' results);
every node whose lookup succeeds appears in the result map — a cache miss
as the empty bundle, not an error — and every node whose lookup fails
appears in the error list. -/
theorem GetMetadataMapBundleOnAllNodes_partial_results
    (nodes : List String)
    (lookup : String → Except String (Option MetadataMapperBundle)) :
    (GetMetadataMapBundleOnAllNodes nodes lookup).1.length +
      (GetMetadataMapBundleOnAllNodes nodes lookup).2.length = nodes.length ∧
    (∀ n ob, n ∈ nodes → lookup n = Except.ok ob →
      (n, ob.getD newMetadataMapperBundle) ∈
        (GetMetadataMapBundleOnAllNodes nodes lookup).1) ∧
    (∀ n e, n ∈ nodes → lookup n = Except.error e →
      (n, e) ∈ (GetMetadataMapBundleOnAllNodes nodes lookup).2) := by
  induction nodes with
  | nil =>
    refine ⟨rfl, ?_, ?_⟩
    · intro n ob hmem
      exact absurd hmem (List.not_mem_nil n)
    · intro n e hmem
      exact absurd hmem (List.not_mem_nil n)
  | cons n0 rest ih =>
    cases hl : lookup n0 with
    | ok ob0 =>
      simp only [GetMetadataMapBundleOnAllNodes, hl]
      refine ⟨?_, ?_, ?_⟩
      · simp only [List.length_cons]
        omega
      · intro n ob hmem heq
        rcases List.mem_cons.1 hmem with rfl | hmem2
        · rw [heq] at hl
          cases hl
          exact List.mem_cons_self _ _
        · exact List.mem_cons_of_mem _ (ih.2.1 n ob hmem2 heq)
      · intro n e hmem heq
        rcases List.mem_cons.1 hmem with rfl | hmem2
        · rw [heq] at hl
          exact Except.noConfusion hl
        · exact ih.2.2 n e hmem2 heq
    | error e0 =>
      simp only [GetMetadataMapBundleOnAllNodes, hl]
      refine ⟨?_, ?_, ?_⟩
      · simp only [List.length_cons]
        omega
      · intro n ob hmem heq
        rcases List.mem_cons.1 hmem with rfl | hmem2
        · rw [heq] at hl
          exact Except.noConfusion hl
        · exact ih.2.1 n ob hmem2 heq
      · intro n e hmem heq
        rcases List.mem_cons.1 hmem with rfl | hmem2
        · rw [heq] at hl
          cases hl
          exact List.mem_cons_self _ _
        · exact List.mem_cons_of_mem _ (ih.2.2 n e hmem2 heq)

theorem GetMetadataMapBundleOnAllNodes_partial_results_witness :
    lookupW8 "n1" = Except.error "connection refused" ∧
    lookupW8 "n2" = Except.ok none ∧
    lookupW8 "n3" = Except.ok (some bundleW8) ∧
    (GetMetadataMapBundleOnAllNodes ["n1", "n2", "n3"] lookupW8).1.length +
      (GetMetadataMapBundleOnAllNodes ["n1", "n2", "n3"] lookupW8).2.length = 3 ∧
    ("n2", newMetadataMapperBundle) ∈
      (GetMetadataMapBundleOnAllNodes ["n1", "n2", "n3"] lookupW8).1 ∧
    ("n1", "connection refused") ∈
      (GetMetadataMapBundleOnAllNodes ["n1", "n2", "n3"] lookupW8).2 :=
  ⟨rfl, rfl, rfl,
    (GetMetadataMapBundleOnAllNodes_partial_results ["n1", "n2", "n3"] lookupW8).1,
    (GetMetadataMapBundleOnAllNodes_partial_results ["n1", "n2", "n3"] lookupW8).2.1
      "n2" none (by simp) rfl,
    (GetMetadataMapBundleOnAllNodes_partial_results ["n1", "n2", "n3"] lookupW8).2.2
      "n1" "connection refused" (by simp) rfl⟩

theorem wqInv_empty : WqInv wqEmpty := by
  refine ⟨List.nodup_nil, ?_, ?_, List.nodup_nil, List.nodup_nil⟩
  · intro k hk
    exact absurd hk (List.not_mem_nil k)
  · intro k hk
    exact absurd hk (List.not_mem_nil k)

theorem wqInv_add (k : String) (wq : WorkQueue) (h : WqInv wq) :
    WqInv (wqAdd k wq) := by
  obtain ⟨h1, h2, h3, h4, h5⟩ := h
  unfold wqAdd
  by_cases hd : k ∈ wq.dirty
  · rw [if_pos hd]
    exact ⟨h1, h2, h3, h4, h5⟩
  · rw [if_neg hd]
    by_cases hp : k ∈ wq.processing
    · rw [if_pos hp]
      refine ⟨h1, ?_, h3, List.nodup_cons.2 ⟨hd, h4⟩, h5⟩
      intro x hx
      exact List.mem_cons_of_mem k (h2 x hx)
    · rw [if_neg hp]
      refine ⟨?_, ?_, ?_, List.nodup_cons.2 ⟨hd, h4⟩, h5⟩
      · rw [List.nodup_append]
        refine ⟨h1, List.nodup_singleton k, ?_⟩
        intro x hx hxk
        rw [List.mem_singleton.1 hxk] at hx
        exact hd (h2 k hx)
      · intro x hx
        rcases List.mem_append.1 hx with h6 | h6
        · exact List.mem_cons_of_mem k (h2 x h6)
        · rw [List.mem_singleton.1 h6]
          exact List.mem_cons_self k wq.dirty
      · intro x hx
        rcases List.mem_append.1 hx with h6 | h6
        · exact h3 x h6
        · rw [List.mem_singleton.1 h6]
          exact hp

theorem wqInv_get (wq : WorkQueue) (h : WqInv wq) : WqInv (wqGet wq).2 := by
  obtain ⟨h1, h2, h3, h4, h5⟩ := h
  unfold wqGet
  cases hq : wq.queue with
  | nil => exact ⟨h1, h2, h3, h4, h5⟩
  | cons k rest =>
    have h1' : (k :: rest).Nodup := hq ▸ h1
    have hkq : k ∈ wq.queue := by
      rw [hq]
      exact List.mem_cons_self k rest
    have hrest : ∀ x ∈ rest, x ∈ wq.queue := by
      rw [hq]
      intro x hx
      exact List.mem_cons_of_mem k hx
    refine ⟨(List.nodup_cons.1 h1').2, ?_, ?_, h4.erase k,
      List.nodup_cons.2 ⟨h3 k hkq, h5⟩⟩
    · intro x hx
      have hxk : x ≠ k := fun he => (List.nodup_cons.1 h1').1 (he ▸ hx)
      exact (List.mem_erase_of_ne hxk).2 (h2 x (hrest x hx))
    · intro x hx hmem
      rcases List.mem_cons.1 hmem with rfl | hmem2
      · exact (List.nodup_cons.1 h1').1 hx
      · exact h3 x (hrest x hx) hmem2

theorem wqInv_done (k : String) (wq : WorkQueue) (h : WqInv wq)
    (hk : k ∈ wq.processing) : WqInv (wqDone k wq) := by
  obtain ⟨h1, h2, h3, h4, h5⟩ := h
  have hkq : k ∉ wq.queue := fun hq => h3 k hq hk
  unfold wqDone
  by_cases hd : k ∈ wq.dirty
  · rw [if_pos hd]
    refine ⟨?_, ?_, ?_, h4, h5.erase k⟩
    · rw [List.nodup_append]
      refine ⟨h1, List.nodup_singleton k, ?_⟩
      intro x hx hxk
      rw [List.mem_singleton.1 hxk] at hx
      exact hkq hx
    · intro x hx
      rcases List.mem_append.1 hx with h6 | h6
      · exact h2 x h6
      · rw [List.mem_singleton.1 h6]
        exact hd
    · intro x hx hmem
      rcases List.mem_append.1 hx with h6 | h6
      · exact h3 x h6 (List.mem_of_mem_erase hmem)
      · rw [List.mem_singleton.1 h6] at hmem
        exact h5.not_mem_erase hmem
  · rw [if_neg hd]
    refine ⟨h1, h2, ?_, h4, h5.erase k⟩
    intro x hx hmem
    exact h3 x hx (List.mem_of_mem_erase hmem)

theorem wqReachable_inv {wq : WorkQueue} (h : WqReachable wq) : WqInv wq := by
  induction h with
  | empty => exact wqInv_empty
  | add k _ ih => exact wqInv_add k _ ih
  | get _ ih => exact wqInv_get _ ih
  | done k _ hk ih => exact wqInv_done k _ ih hk

theorem wqAddN_of_processing (n : Nat) (k : String) (wq : WorkQueue)
    (h : k ∈ wq.processing) :
    (wqAddN n k wq).queue = wq.queue ∧ (wqAddN n k wq).processing = wq.processing := by
  induction n generalizing wq with
  | zero => exact ⟨rfl, rfl⟩
  | succ m ih =>
    have hstep : (wqAdd k wq).queue = wq.queue ∧
        (wqAdd k wq).processing = wq.processing := by
      unfold wqAdd
      by_cases hd : k ∈ wq.dirty
      · rw [if_pos hd]
        exact ⟨rfl, rfl⟩
      · rw [if_neg hd]
        constructor
        · show (if k ∈ wq.processing then wq.queue else wq.queue ++ [k]) = wq.queue
          rw [if_pos h]
        · rfl
    have h2 : k ∈ (wqAdd k wq).processing := hstep.2 ▸ h
    obtain ⟨hq, hp⟩ := ih (wqAdd k wq) h2
    constructor
    · rw [wqAddN, hq, hstep.1]
    · rw [wqAddN, hp, hstep.2]

/-- C9: in every queue state reachable through the queue's own interface,
(i) `dequeue` never hands out a key whose reconciliation is still in
flight — two reconciliations of the same key never run concurrently — and
(ii) enqueuing a key any number of times while it is in flight leaves at
most one pending occurrence of that key after the in-flight run completes:
at most one extra reconciliation follows. -/
theorem workQueue_per_key_exclusion (wq : WorkQueue) (h : WqReachable wq)
    (k : String) (n : Nat) :
    (∀ r wq2, wqGet wq = (some r, wq2) → r ∉ wq.processing) ∧
    (k ∈ wq.processing →
      (wqDone k (wqAddN n k wq)).queue.count k ≤ 1) := by
  obtain ⟨h1, h2, h3, h4, h5⟩ := wqReachable_inv h
  constructor
  · intro r wq2 hget
    unfold wqGet at hget
    cases hq : wq.queue with
    | nil =>
      rw [hq] at hget
      simp at hget
    | cons k0 rest =>
      rw [hq] at hget
      have hr : k0 = r := by
        have := congrArg Prod.fst hget
        exact Option.some.inj this
      subst hr
      exact h3 k0 (hq ▸ List.mem_cons_self k0 rest)
  · intro hk
    obtain ⟨hq, hp⟩ := wqAddN_of_processing n k wq hk
    have hkq : k ∉ wq.queue := fun hmem => h3 k hmem hk
    unfold wqDone
    by_cases hd : k ∈ (wqAddN n k wq).dirty
    · rw [if_pos hd]
      show ((wqAddN n k wq).queue ++ [k]).count k ≤ 1
      rw [List.count_append, hq, List.count_eq_zero_of_not_mem hkq]
      simp
    · rw [if_neg hd]
      show ((wqAddN n k wq).queue).count k ≤ 1
      rw [hq, List.count_eq_zero_of_not_mem hkq]
      exact Nat.zero_le 1

theorem workQueue_per_key_exclusion_witness :
    WqReachable wqW ∧ "a" ∈ wqW.processing ∧
    (wqDone "a" (wqAddN 3 "a" wqW)).queue.count "a" ≤ 1 := by
  have hr : WqReachable wqW := WqReachable.get (WqReachable.add "a" WqReachable.empty)
  exact ⟨hr, by decide, (workQueue_per_key_exclusion wqW hr "a" 3).2 (by decide)⟩

/-- The model replays the four cumulative cases of
TestMetadataControllerSyncEndpoints and reproduces every expected bundle
entry the test asserts, evidence that the embedding matches the behaviour
the in-repo test pins. -/
theorem metadata_controller_test_replay :
    cacheServices stateA1.cache "node1" "default" "pod1_name" = ["svc1"] ∧
    cacheServices stateA1.cache "node2" "default" "pod2_name" = ["svc1"] ∧
    cacheServices stateA2.cache "node1" "default" "pod1_name" = ["svc1"] ∧
    cacheServices stateA2.cache "node1" "datadog-system" "pod3_name" = ["svc1"] ∧
    cacheServices stateA2.cache "node2" "default" "pod2_name" = ["svc1"] ∧
    cacheServices stateA3.cache "node1" "default" "pod1_name" = ["svc1", "svc2"] ∧
    cacheServices stateA3.cache "node1" "datadog-system" "pod3_name" = ["svc1"] ∧
    cacheServices stateA3.cache "node2" "default" "pod2_name" = ["svc1"] ∧
    cacheServices stateA4.cache "node1" "default" "pod1_name" = ["svc2"] ∧
    cacheServices stateA4.cache "node1" "datadog-system" "pod3_name" = ["svc1"] :=
  ⟨by decide, by decide, by decide, by decide, by decide, by decide, by decide,
    by decide, by decide, by decide⟩
